import Mathlib

/-!
# Verification of the Oracle SQL dialect layer (`lib/sqlalchemy/dialects/oracle/base.py`)

A shallow embedding, in Lean 4, of the parts of the Oracle dialect module that the
specification talks about:

* identifier case normalization (`OracleDialect.normalize_name` / `denormalize_name`),
* the ambiguous-NUMBER resolution and column reflection of `OracleDialect.get_columns`,
* synonym resolution (`OracleDialect._resolve_synonym`),
* foreign-key reflection (`OracleDialect.get_foreign_keys`),
* the constraint-cascade DDL translation (`OracleDDLCompiler.define_constraint_cascades`),
* the ROWNUM pagination rewrite and the non-ANSI join rewrite of
  `OracleCompiler.visit_select` / `_get_nonansi_join_whereclause` / `visit_join`.

Python strings are modelled by Lean `String`; the identifiers involved are ASCII, on
which Python `str.upper` / `str.lower` agree with `Char.toUpper` / `Char.toLower`
character-wise.  Catalog query results are modelled as lists of row structures and the
SQL filters of the reflection queries as decidable predicates on those rows.  Warnings
emitted through `util.warn` are modelled as values of a `Warning` type collected in a
list (the side channel), never as failures.
-/

/-! ## Python string case folding (ASCII) -/

/-- Python `str.upper()` on ASCII strings: uppercase every character. -/
def strUpper (s : String) : String := ⟨s.data.map Char.toUpper⟩

/-- Python `str.lower()` on ASCII strings: lowercase every character. -/
def strLower (s : String) : String := ⟨s.data.map Char.toLower⟩

/-! ## Identifier preparer

`RESERVED_WORDS` is the module-level word set of `oracle/base.py`;
`OracleIdentifierPreparer.reserved_words` lowercases every entry, which is the
form stored here.  `illegal_initial_characters` is the class attribute
`re.compile(r'[0-9_$]')`. -/

/-- `set([x.lower() for x in RESERVED_WORDS])` of `oracle/base.py`. -/
def oracle_reserved_words : List String :=
  ["share", "raw", "drop", "between", "from", "desc", "option", "prior", "long",
   "then", "default", "alter", "is", "into", "minus", "integer", "number", "grant",
   "identified", "all", "to", "order", "on", "float", "date", "having", "cluster",
   "nowait", "resource", "any", "table", "index", "for", "update", "where", "check",
   "smallint", "with", "delete", "by", "asc", "revoke", "like", "size", "rename",
   "nocompress", "null", "group", "values", "as", "in", "view", "exclusive",
   "compress", "synonym", "select", "insert", "exists", "not", "trigger", "else",
   "create", "intersect", "pctfree", "distinct", "user", "connect", "set", "mode",
   "of", "unique", "varchar2", "varchar", "lock", "or", "char", "decimal", "union",
   "public", "and", "start", "uid", "comment"]

/-- The Oracle preparer's `illegal_initial_characters` regex `[0-9_$]` applied to a
single character: digit, underscore or currency symbol. -/
def isIllegalInitialChar (c : Char) : Bool :=
  (48 ≤ c.toNat && c.toNat ≤ 57) || c.toNat == 95 || c.toNat == 36

/-- A character of the legal identifier charset (letters of either case, digits,
underscore, dollar), the alphabet `[A-Z0-9_$]` matched case-insensitively. -/
def isLegalIdentChar (c : Char) : Bool :=
  (65 ≤ c.toNat && c.toNat ≤ 90) || (97 ≤ c.toNat && c.toNat ≤ 122) ||
  (48 ≤ c.toNat && c.toNat ≤ 57) || c.toNat == 95 || c.toNat == 36

/-- Modelled from the spec: the base `IdentifierPreparer._requires_quotes` (the generic
compiler module is not part of the sources here).  Per §4.2 of the spec it is
reserved-word membership (case-insensitive) OR an illegal initial character OR the
presence of characters outside the legal identifier charset.  The Oracle subclass
supplies the reserved-word set and the `[0-9_$]` initial-character rule embedded
above.  On the empty string the initial-character test finds no character. -/
def requires_quotes (value : String) : Bool :=
  oracle_reserved_words.contains (strLower value) ||
  (match value.data.head? with
   | some c => isIllegalInitialChar c
   | none => false) ||
  !(value.data.all isLegalIdentChar)

/-- `OracleDialect.normalize_name` on a present (non-`None`) name, with the
byte-decoding step dropped (pure ASCII model): if the name is entirely uppercase and
its lowercased form needs no quoting, fold to lowercase, else return it unchanged. -/
def normalize_name_str (name : String) : String :=
  if strUpper name = name && !(requires_quotes (strLower name)) then strLower name
  else name

/-- `OracleDialect.normalize_name`: `None` propagates. -/
def normalize_name (name : Option String) : Option String :=
  name.map normalize_name_str

/-- `OracleDialect.denormalize_name` on a present name, encoding step dropped: if the
name is entirely lowercase and needs no quoting, fold to uppercase, else unchanged. -/
def denormalize_name_str (name : String) : String :=
  if strLower name = name && !(requires_quotes (strLower name)) then strUpper name
  else name

/-- `OracleDialect.denormalize_name`: `None` propagates. -/
def denormalize_name (name : Option String) : Option String :=
  name.map denormalize_name_str

/-! ### Character-level facts used for the round-trip claim -/

/-- The character alphabet of claim C4: lowercase ASCII letter, digit or underscore. -/
def lowerIdentChar (c : Char) : Bool :=
  (97 ≤ c.toNat && c.toNat ≤ 122) || (48 ≤ c.toNat && c.toNat ≤ 57) || c.toNat == 95

theorem char_toNat_ofNat_valid (n : Nat) (h : n.isValidChar) :
    (Char.ofNat n).toNat = n := by
  simp [Char.ofNat, h, Char.ofNatAux, Char.toNat, UInt32.toNat]

theorem char_eq_of_toNat_eq {c d : Char} (h : c.toNat = d.toNat) : c = d := by
  apply Char.eq_of_val_eq
  apply UInt32.eq_of_toBitVec_eq
  exact BitVec.eq_of_toNat_eq h

theorem toUpper_toNat_of_lower {c : Char} (h1 : 97 ≤ c.toNat) (h2 : c.toNat ≤ 122) :
    c.toUpper.toNat = c.toNat - 32 := by
  have hv : (c.toNat - 32).isValidChar := by left; omega
  simp only [Char.toUpper]
  rw [if_pos ⟨h1, h2⟩]
  exact char_toNat_ofNat_valid _ hv

theorem toLower_toNat_of_upper {c : Char} (h1 : 65 ≤ c.toNat) (h2 : c.toNat ≤ 90) :
    c.toLower.toNat = c.toNat + 32 := by
  have hv : (c.toNat + 32).isValidChar := by left; omega
  simp only [Char.toLower]
  rw [if_pos ⟨h1, h2⟩]
  exact char_toNat_ofNat_valid _ hv

theorem toUpper_fixed {c : Char} (h : ¬ (97 ≤ c.toNat ∧ c.toNat ≤ 122)) :
    c.toUpper = c := by
  simp only [Char.toUpper]
  rw [if_neg h]

theorem toLower_fixed {c : Char} (h : ¬ (65 ≤ c.toNat ∧ c.toNat ≤ 90)) :
    c.toLower = c := by
  simp only [Char.toLower]
  rw [if_neg h]

/-- On the claim's alphabet, `toLower` is the identity. -/
theorem toLower_of_lowerIdentChar {c : Char} (h : lowerIdentChar c = true) :
    c.toLower = c := by
  simp only [lowerIdentChar, Bool.or_eq_true, Bool.and_eq_true, decide_eq_true_eq,
    beq_iff_eq] at h
  apply toLower_fixed
  omega

/-- On the claim's alphabet, `toLower ∘ toUpper` is the identity. -/
theorem toLower_toUpper_of_lowerIdentChar {c : Char} (h : lowerIdentChar c = true) :
    c.toUpper.toLower = c := by
  simp only [lowerIdentChar, Bool.or_eq_true, Bool.and_eq_true, decide_eq_true_eq,
    beq_iff_eq] at h
  rcases h with (⟨h1, h2⟩ | h) | h
  · apply char_eq_of_toNat_eq
    have hu := toUpper_toNat_of_lower h1 h2
    have := toLower_toNat_of_upper (c := c.toUpper) (by omega) (by omega)
    omega
  · have hfix : c.toUpper = c := toUpper_fixed (by omega)
    rw [hfix]
    apply toLower_fixed
    omega
  · have hfix : c.toUpper = c := toUpper_fixed (by omega)
    rw [hfix]
    apply toLower_fixed
    omega

/-- On the claim's alphabet, `toUpper` is idempotent. -/
theorem toUpper_toUpper_of_lowerIdentChar {c : Char} (h : lowerIdentChar c = true) :
    c.toUpper.toUpper = c.toUpper := by
  simp only [lowerIdentChar, Bool.or_eq_true, Bool.and_eq_true, decide_eq_true_eq,
    beq_iff_eq] at h
  rcases h with (⟨h1, h2⟩ | h) | h
  · have hu := toUpper_toNat_of_lower h1 h2
    apply toUpper_fixed
    omega
  · have hfix : c.toUpper = c := toUpper_fixed (by omega)
    rw [hfix, hfix]
  · have hfix : c.toUpper = c := toUpper_fixed (by omega)
    rw [hfix, hfix]

/-- A lowercase ASCII letter is changed by `toUpper`. -/
theorem toUpper_ne_of_letter {c : Char} (h1 : 97 ≤ c.toNat) (h2 : c.toNat ≤ 122) :
    c.toUpper ≠ c := by
  intro he
  have hu := toUpper_toNat_of_lower h1 h2
  rw [he] at hu
  omega

/-! ### String-level facts -/

theorem list_map_id_of_fixed {l : List Char} {f : Char → Char}
    (h : ∀ c ∈ l, f c = c) : l.map f = l := by
  induction l with
  | nil => rfl
  | cons c t ih =>
    simp only [List.map_cons, h c (by simp)]
    rw [ih (fun d hd => h d (by simp [hd]))]

theorem strLower_of_lower {x : String}
    (hchars : ∀ c ∈ x.data, lowerIdentChar c = true) : strLower x = x := by
  have : x.data.map Char.toLower = x.data :=
    list_map_id_of_fixed (fun c hc => toLower_of_lowerIdentChar (hchars c hc))
  cases x with
  | mk d => exact congrArg String.mk this

theorem strLower_strUpper_of_lower {x : String}
    (hchars : ∀ c ∈ x.data, lowerIdentChar c = true) : strLower (strUpper x) = x := by
  cases x with
  | mk d =>
    simp only [strLower, strUpper, List.map_map]
    have : d.map (Char.toLower ∘ Char.toUpper) = d :=
      list_map_id_of_fixed (fun c hc => toLower_toUpper_of_lowerIdentChar (hchars c hc))
    exact congrArg String.mk this

theorem strUpper_strUpper_of_lower {x : String}
    (hchars : ∀ c ∈ x.data, lowerIdentChar c = true) :
    strUpper (strUpper x) = strUpper x := by
  cases x with
  | mk d =>
    simp only [strUpper, List.map_map]
    have : d.map (Char.toUpper ∘ Char.toUpper) = d.map Char.toUpper := by
      induction d with
      | nil => rfl
      | cons c t ih =>
        simp only [List.map_cons, Function.comp_apply]
        rw [toUpper_toUpper_of_lowerIdentChar (hchars c (by simp)),
          ih (fun e he => hchars e (by simp [he]))]
    exact congrArg String.mk this

/-- A claim-C4 identifier starts with a lowercase letter, so uppercasing changes it. -/
theorem strUpper_ne_self {x : String} (hne : x.data ≠ [])
    (hchars : ∀ c ∈ x.data, lowerIdentChar c = true)
    (hinit : isIllegalInitialChar (x.data.headD 'a') = false) :
    ¬ strUpper x = x := by
  intro he
  cases hd : x.data with
  | nil => exact hne hd
  | cons c t =>
    have hc : lowerIdentChar c = true := hchars c (by rw [hd]; simp)
    have hic : isIllegalInitialChar c = false := by rwa [hd] at hinit
    simp only [lowerIdentChar, Bool.or_eq_true, Bool.and_eq_true, decide_eq_true_eq,
      beq_iff_eq] at hc
    simp only [isIllegalInitialChar, Bool.or_eq_false_iff, Bool.and_eq_false_iff,
      decide_eq_false_iff_not, beq_eq_false_iff_ne] at hic
    have hletter : 97 ≤ c.toNat ∧ c.toNat ≤ 122 := by
      rcases hc with (h | h) | h
      · exact h
      · exact absurd h (by omega)
      · exact absurd h (by omega)
    have hdata : (strUpper x).data = x.data := congrArg String.data he
    rw [hd] at hdata
    simp only [strUpper] at hdata
    rw [hd] at hdata
    simp only [List.map_cons, List.cons.injEq] at hdata
    exact toUpper_ne_of_letter hletter.1 hletter.2 hdata.1

theorem lowerIdentChar_legal {c : Char} (h : lowerIdentChar c = true) :
    isLegalIdentChar c = true := by
  simp only [lowerIdentChar, Bool.or_eq_true, Bool.and_eq_true, decide_eq_true_eq,
    beq_iff_eq] at h
  simp only [isLegalIdentChar, Bool.or_eq_true, Bool.and_eq_true, decide_eq_true_eq,
    beq_iff_eq]
  omega

/-- A claim-C4 identifier needs no quoting. -/
theorem requires_quotes_false {x : String}
    (hchars : ∀ c ∈ x.data, lowerIdentChar c = true)
    (hres : oracle_reserved_words.contains x = false)
    (hinit : isIllegalInitialChar (x.data.headD 'a') = false) :
    requires_quotes x = false := by
  have hlow : strLower x = x := strLower_of_lower hchars
  simp only [requires_quotes, Bool.or_eq_false_iff, Bool.not_eq_false']
  refine ⟨⟨?_, ?_⟩, ?_⟩
  · rw [hlow]; exact hres
  · cases hd : x.data with
    | nil => simp
    | cons c t =>
      simp only [List.head?_cons]
      rw [hd] at hinit
      simpa using hinit
  · rw [List.all_eq_true]
    intro c hc
    exact lowerIdentChar_legal (hchars c hc)

/-- C4 (counterexample).  The identifier `abc` satisfies every hypothesis of the
claim (lowercase letters, not reserved, legal initial character), yet
`denormalize_name (normalize_name "abc")` is `"ABC"`, not `"abc"`: `normalize_name`
leaves an all-lowercase name unchanged (its guard asks for an all-uppercase name),
and `denormalize_name` then folds it to uppercase. -/
theorem claim_C4_counterexample :
    ("abc".data ≠ [] ∧ (∀ c ∈ "abc".data, lowerIdentChar c = true) ∧
     oracle_reserved_words.contains "abc" = false ∧
     isIllegalInitialChar ("abc".data.headD 'a') = false) ∧
    denormalize_name (normalize_name (some "abc")) ≠ some "abc" := by
  constructor
  · exact ⟨by decide, by decide, by decide, by decide⟩
  · decide

/-- C4 (amended).  For every identifier of lowercase ASCII letters, digits and
underscores that is nonempty, not a reserved word and does not begin with an illegal
initial character: `normalize_name (denormalize_name x) = x`, while
`denormalize_name (normalize_name x)` is the uppercased form of `x` (the claim's
`denormalize(normalize(x)) = x` direction only holds after uppercasing, i.e. on the
engine-side spelling of the name). -/
theorem claim_C4_roundtrip (x : String) (hne : x.data ≠ [])
    (hchars : ∀ c ∈ x.data, lowerIdentChar c = true)
    (hres : oracle_reserved_words.contains x = false)
    (hinit : isIllegalInitialChar (x.data.headD 'a') = false) :
    normalize_name (denormalize_name (some x)) = some x ∧
    denormalize_name (normalize_name (some x)) = some (strUpper x) ∧
    denormalize_name (normalize_name (some (strUpper x))) = some (strUpper x) := by
  have hlow : strLower x = x := strLower_of_lower hchars
  have hrq : requires_quotes x = false := requires_quotes_false hchars hres hinit
  have hup_ne : ¬ strUpper x = x := strUpper_ne_self hne hchars hinit
  have hdenorm : denormalize_name_str x = strUpper x := by
    simp only [denormalize_name_str, hlow, hrq]
    simp
  have hnorm_up : normalize_name_str (strUpper x) = x := by
    simp only [normalize_name_str, strUpper_strUpper_of_lower hchars,
      strLower_strUpper_of_lower hchars, hrq]
    simp [strLower_strUpper_of_lower hchars]
  have hnorm : normalize_name_str x = x := by
    simp only [normalize_name_str]
    rw [if_neg]
    simp only [Bool.and_eq_true, decide_eq_true_eq]
    intro hand
    exact hup_ne hand.1
  refine ⟨?_, ?_, ?_⟩
  · show some (normalize_name_str (denormalize_name_str x)) = some x
    rw [hdenorm, hnorm_up]
  · show some (denormalize_name_str (normalize_name_str x)) = some (strUpper x)
    rw [hnorm, hdenorm]
  · show some (denormalize_name_str (normalize_name_str (strUpper x))) = some (strUpper x)
    rw [hnorm_up, hdenorm]

/-- C4 witness: the amended round-trip at the concrete identifier `abc`. -/
theorem claim_C4_roundtrip_witness :
    ("abc".data ≠ [] ∧
     normalize_name (denormalize_name (some "abc")) = some "abc" ∧
     denormalize_name (normalize_name (some "abc")) = some (strUpper "abc")) :=
  ⟨by decide,
   (claim_C4_roundtrip "abc" (by decide) (by decide) (by decide) (by decide)).1,
   (claim_C4_roundtrip "abc" (by decide) (by decide) (by decide) (by decide)).2.1⟩

/-! ## Warnings

`util.warn` calls are modelled as values collected in a list: they are a side
channel, never an exception. -/

/-- The warnings the embedded operations can emit. -/
inductive OraWarning where
  /-- `get_columns`: `Did not recognize type ... of column ...` (stripped native type
  name and normalized column name). -/
  | unrecognizedType (typ : String) (col : String)
  /-- `define_constraint_cascades`: Oracle lacks native `ON UPDATE CASCADE`. -/
  | updateCascade
  /-- `get_foreign_keys`: `None` remote table name from `all_cons_columns` (ticket 363,
  a permissions gap); parameterized by the dblink suffix interpolated into the text. -/
  | noneRemoteTable (dblink : String)
deriving DecidableEq, Repr

/-! ## Type mapping for reflected columns (`OracleDialect.get_columns`) -/

/-- The abstract types `get_columns` can assign to a reflected column. -/
inductive ReflectedType where
  /-- `sqltypes.NUMERIC`, the bare class (generic decimal). -/
  | numericClass
  /-- `sqltypes.INTEGER`, the bare class. -/
  | integerClass
  /-- `sqltypes.NUMERIC(precision, scale)`. -/
  | numericOf (precision : Option Int) (scale : Option Int)
  /-- `CHAR(length)` via `ischema_names.get('CHAR')(length)`. -/
  | charOf (length : Option Int)
  /-- `VARCHAR(length)` via `ischema_names.get('VARCHAR2')(length)`. -/
  | varcharOf (length : Option Int)
  /-- `ischema_names[name]` for the other recognized native names. -/
  | namedType (name : String)
  /-- `sqltypes.NULLTYPE`, the unknown-type marker. -/
  | nullType
deriving DecidableEq, Repr

/-- The key set of the `ischema_names` dict of `oracle/base.py`. -/
def ischema_names : List String :=
  ["VARCHAR2", "NVARCHAR2", "CHAR", "DATE", "DATETIME", "NUMBER", "BLOB", "BFILE",
   "CLOB", "NCLOB", "TIMESTAMP", "RAW", "FLOAT", "DOUBLE PRECISION", "LONG"]

/-- The `NUMBER` disambiguation of `get_columns`: bare `NUMERIC` when precision and
scale are both absent, `INTEGER` when precision is absent and scale is 0, otherwise
`NUMERIC(precision, scale)`. -/
def oracleNumberType (precision scale : Option Int) : ReflectedType :=
  if precision = none ∧ scale = none then .numericClass
  else if precision = none ∧ scale = some 0 then .integerClass
  else .numericOf precision scale

/-! ### The `re.sub(r'\(\d+\)', '', coltype)` step -/

/-- ASCII digit test (`\d` over the catalog's ASCII type names). -/
def isAsciiDigit (c : Char) : Bool := 48 ≤ c.toNat && c.toNat ≤ 57

/-- After an opening paren, try to consume `\d+\)`; `some rest` on a match. -/
def matchDigitsClose (l : List Char) : Option (List Char) :=
  if (l.takeWhile isAsciiDigit).isEmpty then none
  else
    match l.dropWhile isAsciiDigit with
    | ')' :: r => some r
    | _ => none

theorem length_dropWhile_le (p : Char → Bool) (l : List Char) :
    (l.dropWhile p).length ≤ l.length := by
  induction l with
  | nil => simp [List.dropWhile]
  | cons c t ih =>
    simp only [List.dropWhile]
    cases p c
    · simp
    · simpa using Nat.le_succ_of_le ih

theorem matchDigitsClose_length {l r : List Char}
    (h : matchDigitsClose l = some r) : r.length < l.length := by
  simp only [matchDigitsClose] at h
  split at h
  · exact absurd h (by simp)
  · split at h
    · rename_i heq
      cases h
      have hd := length_dropWhile_le isAsciiDigit l
      rw [heq] at hd
      simp only [List.length_cons] at hd
      omega
    · exact absurd h (by simp)

/-- Remove every non-overlapping match of `\(\d+\)` scanning left to right, as
`re.sub(r'\(\d+\)', '', coltype)` does.  The fuel argument only serves structural
recursion; any fuel of at least the list length gives the same result
(`stripParenDigitsFuel_congr`), and the wrapper below supplies exactly that. -/
def stripParenDigitsFuel : Nat → List Char → List Char
  | 0, l => l
  | _ + 1, [] => []
  | fuel + 1, c :: rest =>
    if c = '(' then
      match matchDigitsClose rest with
      | some r => stripParenDigitsFuel fuel r
      | none => c :: stripParenDigitsFuel fuel rest
    else c :: stripParenDigitsFuel fuel rest

/-- Sufficient fuel makes `stripParenDigitsFuel` fuel-independent. -/
theorem stripParenDigitsFuel_congr :
    ∀ (fuel1 fuel2 : Nat) (l : List Char), l.length ≤ fuel1 → l.length ≤ fuel2 →
      stripParenDigitsFuel fuel1 l = stripParenDigitsFuel fuel2 l := by
  intro fuel1
  induction fuel1 with
  | zero =>
    intro fuel2 l h1 _
    have : l = [] := List.length_eq_zero.mp (Nat.le_zero.mp h1)
    subst this
    cases fuel2 <;> rfl
  | succ f1 ih =>
    intro fuel2 l h1 h2
    cases fuel2 with
    | zero =>
      have : l = [] := List.length_eq_zero.mp (Nat.le_zero.mp h2)
      subst this
      rfl
    | succ f2 =>
      cases l with
      | nil => rfl
      | cons c rest =>
        simp only [stripParenDigitsFuel, List.length_cons] at h1 h2 ⊢
        by_cases hc : c = '('
        · rw [if_pos hc, if_pos hc]
          cases hm : matchDigitsClose rest with
          | some r =>
            have hr := matchDigitsClose_length hm
            exact ih f2 r (by omega) (by omega)
          | none => rw [ih f2 rest (by omega) (by omega)]
        · rw [if_neg hc, if_neg hc, ih f2 rest (by omega) (by omega)]

def stripParenDigits (l : List Char) : List Char :=
  stripParenDigitsFuel l.length l

/-- `re.sub(r'\(\d+\)', '', coltype)` on strings. -/
def stripParen (s : String) : String := ⟨stripParenDigits s.data⟩

/-! ### Column reflection -/

/-- One row of the `ALL_TAB_COLUMNS` query issued by `get_columns`. -/
structure TabColumnRow where
  column_name : String
  data_type : String
  data_length : Option Int
  data_precision : Option Int
  data_scale : Option Int
  nullable : String
  data_default : Option String
deriving DecidableEq, Repr

/-- The column dict `get_columns` appends for each catalog row. -/
structure ReflectedColumn where
  name : String
  type : ReflectedType
  nullable : Bool
  default : Option String
deriving DecidableEq, Repr

/-- One iteration of the `get_columns` row loop: normalize the column name, resolve
the native type (`NUMBER` disambiguation, `CHAR`/`VARCHAR2` with length, otherwise an
`ischema_names` lookup on the name with `(\d+)` stripped, degrading to `NULLTYPE`
plus a warning), and build the column dict. -/
def reflect_column (row : TabColumnRow) : ReflectedColumn × List OraWarning :=
  let colname := normalize_name_str row.column_name
  let typed : ReflectedType × List OraWarning :=
    if row.data_type = "NUMBER" then
      (oracleNumberType row.data_precision row.data_scale, [])
    else if row.data_type = "CHAR" then
      (.charOf row.data_length, [])
    else if row.data_type = "VARCHAR2" then
      (.varcharOf row.data_length, [])
    else
      let t := stripParen row.data_type
      if ischema_names.contains t then (.namedType t, [])
      else (.nullType, [.unrecognizedType t colname])
  ({ name := colname, type := typed.1, nullable := row.nullable == "Y",
     default := row.data_default }, typed.2)

/-- The row loop of `get_columns`: every row yields a column dict; warnings
accumulate on the side. -/
def get_columns : List TabColumnRow → List ReflectedColumn × List OraWarning
  | [] => ([], [])
  | row :: rest =>
    let res := reflect_column row
    let tail := get_columns rest
    (res.1 :: tail.1, res.2 ++ tail.2)

theorem get_columns_length (rows : List TabColumnRow) :
    (get_columns rows).1.length = rows.length := by
  induction rows with
  | nil => rfl
  | cons r t ih => simp [get_columns, ih]

theorem get_columns_mem_col {rows : List TabColumnRow} {row : TabColumnRow}
    (h : row ∈ rows) : (reflect_column row).1 ∈ (get_columns rows).1 := by
  induction rows with
  | nil => cases h
  | cons r t ih =>
    rcases List.mem_cons.mp h with he | ht
    · subst he; simp [get_columns]
    · simp [get_columns, ih ht]

theorem get_columns_mem_warn {rows : List TabColumnRow} {row : TabColumnRow}
    {w : OraWarning} (h : row ∈ rows) (hw : w ∈ (reflect_column row).2) :
    w ∈ (get_columns rows).2 := by
  induction rows with
  | nil => cases h
  | cons r t ih =>
    rcases List.mem_cons.mp h with he | ht
    · subst he; simp only [get_columns, List.mem_append]; exact Or.inl hw
    · simp only [get_columns, List.mem_append]; exact Or.inr (ih ht)

/-- C5.  The ambiguous `NUMBER` native type resolves in order: precision and scale
both absent gives bare `NUMERIC`; precision absent with scale 0 gives `INTEGER`;
otherwise `NUMERIC(precision, scale)` — and this is exactly the type `get_columns`
assigns to a `NUMBER` column. -/
theorem claim_C5_number_resolution (p s : Option Int) (row : TabColumnRow)
    (hrow : row.data_type = "NUMBER") (hp : row.data_precision = p)
    (hs : row.data_scale = s) :
    (reflect_column row).1.type = oracleNumberType p s ∧
    (p = none ∧ s = none → oracleNumberType p s = .numericClass) ∧
    (p = none ∧ s = some 0 → oracleNumberType p s = .integerClass) ∧
    (¬(p = none ∧ s = none) → ¬(p = none ∧ s = some 0) →
      oracleNumberType p s = .numericOf p s) := by
  refine ⟨?_, ?_, ?_, ?_⟩
  · simp [reflect_column, hrow, hp, hs]
  · rintro ⟨hp0, hs0⟩; simp [oracleNumberType, hp0, hs0]
  · rintro ⟨hp0, hs0⟩; simp [oracleNumberType, hp0, hs0]
  · intro h1 h2
    simp only [oracleNumberType, if_neg h1, if_neg h2]

/-- C5 witness: the three branches at concrete precision/scale pairs. -/
theorem claim_C5_number_resolution_witness :
    (reflect_column ⟨"N1", "NUMBER", none, none, some 0, "Y", none⟩).1.type
      = ReflectedType.integerClass ∧
    oracleNumberType none none = .numericClass ∧
    oracleNumberType (some 9) (some 2) = .numericOf (some 9) (some 2) := by
  refine ⟨?_, ?_, ?_⟩
  · rw [(claim_C5_number_resolution none (some 0)
      ⟨"N1", "NUMBER", none, none, some 0, "Y", none⟩ rfl rfl rfl).1]
    exact (claim_C5_number_resolution none (some 0)
      ⟨"N1", "NUMBER", none, none, some 0, "Y", none⟩ rfl rfl rfl).2.2.1 ⟨rfl, rfl⟩
  · exact (claim_C5_number_resolution none none
      ⟨"N1", "NUMBER", none, none, none, "Y", none⟩ rfl rfl rfl).2.1 ⟨rfl, rfl⟩
  · exact (claim_C5_number_resolution (some 9) (some 2)
      ⟨"N1", "NUMBER", none, some 9, some 2, "Y", none⟩ rfl rfl rfl).2.2.2
      (by simp) (by simp)

/-- C7.  A column whose (suffix-stripped) native type name is outside
`ischema_names` gets the `NULLTYPE` marker and a warning in the side channel, and
reflection still produces one column dict per catalog row, the unknown-typed
column included. -/
theorem claim_C7_unknown_type (rows : List TabColumnRow) (row : TabColumnRow)
    (hmem : row ∈ rows)
    (hnum : row.data_type ≠ "NUMBER") (hchar : row.data_type ≠ "CHAR")
    (hvc : row.data_type ≠ "VARCHAR2")
    (hunk : stripParen row.data_type ∉ ischema_names) :
    (get_columns rows).1.length = rows.length ∧
    (reflect_column row).1.type = .nullType ∧
    (reflect_column row).1 ∈ (get_columns rows).1 ∧
    OraWarning.unrecognizedType (stripParen row.data_type)
        (normalize_name_str row.column_name) ∈ (get_columns rows).2 := by
  have htype : (reflect_column row).2 =
      [.unrecognizedType (stripParen row.data_type)
        (normalize_name_str row.column_name)] ∧
      (reflect_column row).1.type = .nullType := by
    refine ⟨?_, ?_⟩ <;>
      simp [reflect_column, if_neg hnum, if_neg hchar, if_neg hvc, if_neg hunk]
  refine ⟨get_columns_length rows, htype.2, get_columns_mem_col hmem, ?_⟩
  exact get_columns_mem_warn hmem (by rw [htype.1]; simp)

/-- C7 witness: a single-row catalog with native type `INTERVAL DAY(2) TO SECOND(6)`. -/
theorem claim_C7_unknown_type_witness :
    (get_columns [⟨"C1", "INTERVAL DAY(2) TO SECOND(6)", none, none, none, "N", none⟩]).1.length = 1 ∧
    (reflect_column ⟨"C1", "INTERVAL DAY(2) TO SECOND(6)", none, none, none, "N", none⟩).1.type
      = ReflectedType.nullType := by
  have h := claim_C7_unknown_type
    [⟨"C1", "INTERVAL DAY(2) TO SECOND(6)", none, none, none, "N", none⟩]
    ⟨"C1", "INTERVAL DAY(2) TO SECOND(6)", none, none, none, "N", none⟩
    (by simp) (by decide) (by decide) (by decide) (by decide)
  exact ⟨h.1, h.2.1⟩

/-! ## DDL compiler: constraint cascades
(`OracleDDLCompiler.define_constraint_cascades`) -/

/-- The cascade options of a foreign-key constraint. -/
structure FKConstraintOpts where
  ondelete : Option String
  onupdate : Option String
deriving DecidableEq, Repr

/-- `define_constraint_cascades`: `ON DELETE` passes through verbatim; a set
`onupdate` only warns (Oracle has no `ON UPDATE CASCADE`); the emitted text never
depends on `onupdate`. -/
def define_constraint_cascades (c : FKConstraintOpts) : String × List OraWarning :=
  let text := match c.ondelete with
    | some d => "" ++ " ON DELETE " ++ d
    | none => ""
  let warns : List OraWarning := match c.onupdate with
    | some _ => [.updateCascade]
    | none => []
  (text, warns)

/-- C8.  With `ON DELETE` set the emitted text is ` ON DELETE <option>` verbatim;
an `ON UPDATE` option changes nothing in the emitted text and instead raises the
(non-fatal, side-channel) warning; with neither option the cascade text is empty
and no warning is raised. -/
theorem claim_C8_cascades (c : FKConstraintOpts) :
    (∀ d, c.ondelete = some d → (define_constraint_cascades c).1 = " ON DELETE " ++ d) ∧
    ((define_constraint_cascades c).1 =
      (define_constraint_cascades { ondelete := c.ondelete, onupdate := none }).1) ∧
    (∀ u, c.onupdate = some u →
      (define_constraint_cascades c).2 = [.updateCascade]) ∧
    (c.ondelete = none → c.onupdate = none → define_constraint_cascades c = ("", [])) := by
  refine ⟨?_, ?_, ?_, ?_⟩
  · intro d hd; simp [define_constraint_cascades, hd]
  · rcases c with ⟨od, ou⟩
    cases od <;> simp [define_constraint_cascades]
  · intro u hu; simp [define_constraint_cascades, hu]
  · intro h1 h2; simp [define_constraint_cascades, h1, h2]

/-- C8 witness: `ondelete = CASCADE`, `onupdate = CASCADE`. -/
theorem claim_C8_cascades_witness :
    (define_constraint_cascades ⟨some "CASCADE", some "CASCADE"⟩).1
      = " ON DELETE " ++ "CASCADE" ∧
    (define_constraint_cascades ⟨some "CASCADE", some "CASCADE"⟩).2
      = [OraWarning.updateCascade] :=
  ⟨(claim_C8_cascades ⟨some "CASCADE", some "CASCADE"⟩).1 "CASCADE" rfl,
   (claim_C8_cascades ⟨some "CASCADE", some "CASCADE"⟩).2.2.1 "CASCADE" rfl⟩

/-! ## Synonym resolution (`OracleDialect._resolve_synonym`) -/

/-- One row of the `ALL_SYNONYMS` catalog view. -/
structure SynonymRow where
  owner : String
  table_owner : String
  table_name : String
  db_link : Option String
  synonym_name : String
deriving DecidableEq, Repr

/-- The WHERE filter `_resolve_synonym` assembles: one equality clause per supplied
argument (`SYNONYM_NAME = :synonym_name`, `TABLE_OWNER = :desired_owner`,
`TABLE_NAME = :tname`), conjoined. -/
def synonymMatches (desired_owner desired_synonym desired_table : Option String)
    (r : SynonymRow) : Bool :=
  (match desired_synonym with
   | some s => r.synonym_name == s
   | none => true) &&
  (match desired_owner with
   | some o => r.table_owner == o
   | none => true) &&
  (match desired_table with
   | some t => r.table_name == t
   | none => true)

/-- Outcome of `_resolve_synonym`: a found row's
`(TABLE_NAME, TABLE_OWNER, DB_LINK, SYNONYM_NAME)` tuple, the `(None, None, None,
None)` not-found tuple, or the `AssertionError` raised on an ambiguous ownerless
lookup (`There are multiple tables visible to the schema, you must specify owner`). -/
inductive SynonymResolution where
  | found (table_name table_owner : String) (db_link : Option String)
      (synonym_name : String)
  | notFound
  | ambiguous
deriving DecidableEq, Repr

/-- `OracleDialect._resolve_synonym` over the modelled catalog: with an owner the
query result is consumed with `fetchone()` (first row or not-found); without an
owner, `fetchall()` — more than one row raises, one row is returned, none is
not-found. -/
def _resolve_synonym (catalog : List SynonymRow)
    (desired_owner desired_synonym desired_table : Option String) :
    SynonymResolution :=
  let rows := catalog.filter (synonymMatches desired_owner desired_synonym desired_table)
  match desired_owner with
  | some _ =>
    match rows.head? with
    | some row => .found row.table_name row.table_owner row.db_link row.synonym_name
    | none => .notFound
  | none =>
    if rows.length > 1 then .ambiguous
    else
      match rows.head? with
      | some row => .found row.table_name row.table_owner row.db_link row.synonym_name
      | none => .notFound

/-- C3.  With an owner supplied, the first matching catalog row is returned, and no
matching row gives not-found; with the owner omitted, a unique match is returned,
zero matches give not-found, and two or more matches raise the ambiguity error
instead of returning any row. -/
theorem claim_C3_resolve_synonym (catalog pre post : List SynonymRow)
    (syn tbl : Option String) (own : String) (r : SynonymRow) :
    (catalog = pre ++ r :: post →
      (∀ q ∈ pre, synonymMatches (some own) syn tbl q = false) →
      synonymMatches (some own) syn tbl r = true →
      _resolve_synonym catalog (some own) syn tbl
        = .found r.table_name r.table_owner r.db_link r.synonym_name) ∧
    ((∀ q ∈ catalog, synonymMatches (some own) syn tbl q = false) →
      _resolve_synonym catalog (some own) syn tbl = .notFound) ∧
    (catalog.countP (synonymMatches none syn tbl) = 1 →
      r ∈ catalog → synonymMatches none syn tbl r = true →
      _resolve_synonym catalog none syn tbl
        = .found r.table_name r.table_owner r.db_link r.synonym_name) ∧
    (catalog.countP (synonymMatches none syn tbl) = 0 →
      _resolve_synonym catalog none syn tbl = .notFound) ∧
    (2 ≤ catalog.countP (synonymMatches none syn tbl) →
      _resolve_synonym catalog none syn tbl = .ambiguous) := by
  refine ⟨?_, ?_, ?_, ?_, ?_⟩
  · intro hcat hpre hr
    have hfilter : catalog.filter (synonymMatches (some own) syn tbl)
        = r :: (post.filter (synonymMatches (some own) syn tbl)) := by
      rw [hcat, List.filter_append]
      rw [List.filter_eq_nil_iff.mpr (by intro q hq; simp [hpre q hq])]
      simp [List.filter_cons, hr]
    simp [_resolve_synonym, hfilter]
  · intro hall
    have hfilter : catalog.filter (synonymMatches (some own) syn tbl) = [] :=
      List.filter_eq_nil_iff.mpr (by intro q hq; simp [hall q hq])
    simp [_resolve_synonym, hfilter]
  · intro hcount hmem hmatch
    have hlen : (catalog.filter (synonymMatches none syn tbl)).length = 1 := by
      rw [← List.countP_eq_length_filter]; exact hcount
    obtain ⟨q, hq⟩ := List.length_eq_one.mp hlen
    have hrmem : r ∈ catalog.filter (synonymMatches none syn tbl) :=
      List.mem_filter.mpr ⟨hmem, hmatch⟩
    rw [hq] at hrmem
    have : r = q := by simpa using hrmem
    subst this
    simp [_resolve_synonym, hq]
  · intro hcount
    have hlen : (catalog.filter (synonymMatches none syn tbl)).length = 0 := by
      rw [← List.countP_eq_length_filter]; exact hcount
    have hfilter : catalog.filter (synonymMatches none syn tbl) = [] :=
      List.length_eq_zero.mp hlen
    simp [_resolve_synonym, hfilter]
  · intro hcount
    have hlen : 2 ≤ (catalog.filter (synonymMatches none syn tbl)).length := by
      rw [← List.countP_eq_length_filter]; exact hcount
    simp only [_resolve_synonym]
    rw [if_pos (by omega)]

/-- C3 witness: a two-row catalog matching synonym `S` with no owner raises the
ambiguity error; with owner `O1` supplied the first matching row is returned. -/
theorem claim_C3_resolve_synonym_witness :
    _resolve_synonym
      [⟨"PUBLIC", "O1", "T1", none, "S"⟩, ⟨"PUBLIC", "O2", "T2", none, "S"⟩]
      none (some "S") none = .ambiguous ∧
    _resolve_synonym
      [⟨"PUBLIC", "O1", "T1", none, "S"⟩, ⟨"PUBLIC", "O2", "T2", none, "S"⟩]
      (some "O2") (some "S") none = .found "T2" "O2" none "S" := by
  constructor
  · exact (claim_C3_resolve_synonym
      [⟨"PUBLIC", "O1", "T1", none, "S"⟩, ⟨"PUBLIC", "O2", "T2", none, "S"⟩]
      [] [] (some "S") none "O2" ⟨"PUBLIC", "O2", "T2", none, "S"⟩).2.2.2.2
      (by decide)
  · exact (claim_C3_resolve_synonym
      [⟨"PUBLIC", "O1", "T1", none, "S"⟩, ⟨"PUBLIC", "O2", "T2", none, "S"⟩]
      [⟨"PUBLIC", "O1", "T1", none, "S"⟩] [] (some "S") none "O2"
      ⟨"PUBLIC", "O2", "T2", none, "S"⟩).1 (by decide) (by decide) (by decide)

/-! ## Foreign-key reflection (`OracleDialect.get_foreign_keys`) -/

/-- One row of the `_get_constraint_data` query: `all_constraints` joined with the
local `all_cons_columns` and, through an outer join (hence the `Option` remote
fields), the remote `all_cons_columns`; rows arrive ordered by constraint name then
local column position. -/
structure ConstraintRow where
  constraint_name : String
  constraint_type : String
  local_column : String
  remote_table : Option String
  remote_column : Option String
  remote_owner : Option String
deriving DecidableEq, Repr

/-- The record `fkey_rec()` initializes for each constraint name; the referred
columns stay `Option` because they come through the outer join. -/
structure FKeyRec where
  name : Option String
  constrained_columns : List String
  referred_schema : Option String
  referred_table : Option String
  referred_columns : List (Option String)
deriving DecidableEq, Repr

/-- `fkey_rec()`: the default record of the `util.defaultdict`. -/
def fkey_rec : FKeyRec :=
  { name := none, constrained_columns := [], referred_schema := none,
    referred_table := none, referred_columns := [] }

/-- `fkeys[cons_name]` read: the stored record, or the default. -/
def alistGet (m : List (String × FKeyRec)) (k : String) : FKeyRec :=
  match m.find? (fun p => p.1 == k) with
  | some p => p.2
  | none => fkey_rec

/-- `fkeys[cons_name]` write-back: update in place, or append on first access
(the defaultdict creates the entry at first access, preserving that order). -/
def alistSet (m : List (String × FKeyRec)) (k : String) (v : FKeyRec) :
    List (String × FKeyRec) :=
  if m.any (fun p => p.1 == k) then
    m.map (fun p => if p.1 == k then (k, v) else p)
  else m ++ [(k, v)]

/-- Python truthiness of `rec['referred_table']`: `None` and the empty string are
falsy. -/
def optStrFalsy : Option String → Bool
  | none => true
  | some s => s == ""

/-- The referred-table synonym step of `get_foreign_keys`: with synonym resolution
requested, look the (denormalized) remote table and owner up in `ALL_SYNONYMS`; a
found synonym replaces the referred table (by the synonym's own name) and owner; an
ambiguity raises through `Except.error`. -/
def fkResolveReferred (resolveSyn : Bool) (synCatalog : List SynonymRow)
    (rt : String) (remote_owner : Option String) :
    Except String (String × Option String) :=
  if resolveSyn then
    match _resolve_synonym synCatalog (denormalize_name remote_owner) none
        (denormalize_name (some rt)) with
    | .ambiguous =>
      Except.error
        "There are multiple tables visible to the schema, you must specify owner"
    | .found _ ref_remote_owner _ ref_synonym =>
      if ref_synonym ≠ "" then
        Except.ok (normalize_name_str ref_synonym,
          normalize_name (some ref_remote_owner))
      else Except.ok (rt, remote_owner)
    | .notFound => Except.ok (rt, remote_owner)
  else Except.ok (rt, remote_owner)

/-- The `if not rec['referred_table']` block of the row loop: set the referred
table (after optional synonym resolution) and, when a schema was requested or the
referred owner differs from the reflected schema, the referred schema. -/
def fkSetReferred (resolveSyn : Bool) (synCatalog : List SynonymRow)
    (requested_schema : Option String) (schema : String)
    (rt : String) (remote_owner : Option String) (rec1 : FKeyRec) :
    Except String FKeyRec :=
  if optStrFalsy rec1.referred_table then
    match fkResolveReferred resolveSyn synCatalog rt remote_owner with
    | .error e => .error e
    | .ok rtro =>
      let rec2 : FKeyRec := { rec1 with referred_table := some rtro.1 }
      if requested_schema.isSome ∨ denormalize_name rtro.2 ≠ some schema then
        .ok { rec2 with referred_schema := rtro.2 }
      else .ok rec2
  else .ok rec1

/-- One iteration of the `get_foreign_keys` row loop.  Non-`R` rows are skipped; an
`R` row with a `None` remote table is skipped with the ticket-363 warning; otherwise
the row's record is fetched (created on first access), its name and — once per
constraint — referred table/schema are set, and the local and remote column names
are appended in row order. -/
def fkProcessRow (resolveSyn : Bool) (synCatalog : List SynonymRow) (dblink : String)
    (requested_schema : Option String) (schema : String)
    (st : List (String × FKeyRec) × List OraWarning) (row : ConstraintRow) :
    Except String (List (String × FKeyRec) × List OraWarning) :=
  let cons_name := row.constraint_name
  let local_column := normalize_name_str row.local_column
  let remote_table := normalize_name row.remote_table
  let remote_column := normalize_name row.remote_column
  let remote_owner := normalize_name row.remote_owner
  if row.constraint_type = "R" then
    match remote_table with
    | none => .ok (st.1, st.2 ++ [.noneRemoteTable dblink])
    | some rt =>
      let rec1 : FKeyRec := { alistGet st.1 cons_name with name := some cons_name }
      match fkSetReferred resolveSyn synCatalog requested_schema schema rt
          remote_owner rec1 with
      | .error e => .error e
      | .ok rec3 =>
        let rec4 : FKeyRec := { rec3 with
          constrained_columns := rec3.constrained_columns ++ [local_column],
          referred_columns := rec3.referred_columns ++ [remote_column] }
        .ok (alistSet st.1 cons_name rec4, st.2)
  else
    .ok st

/-- The `get_foreign_keys` row loop over the constraint query results. -/
def get_foreign_keys_rows (resolveSyn : Bool) (synCatalog : List SynonymRow)
    (dblink : String) (requested_schema : Option String) (schema : String) :
    List ConstraintRow → List (String × FKeyRec) × List OraWarning →
    Except String (List (String × FKeyRec) × List OraWarning)
  | [], st => .ok st
  | row :: rest, st =>
    match fkProcessRow resolveSyn synCatalog dblink requested_schema schema st row with
    | .error e => .error e
    | .ok st2 =>
      get_foreign_keys_rows resolveSyn synCatalog dblink requested_schema schema rest st2

/-- `OracleDialect.get_foreign_keys` on the modelled constraint rows: the grouped
records (`fkeys.values()`) plus the collected warnings. -/
def get_foreign_keys (resolveSyn : Bool) (synCatalog : List SynonymRow)
    (dblink : String) (requested_schema : Option String) (schema : String)
    (rows : List ConstraintRow) : Except String (List FKeyRec × List OraWarning) :=
  match get_foreign_keys_rows resolveSyn synCatalog dblink requested_schema schema
      rows ([], []) with
  | .error e => .error e
  | .ok st => .ok (st.1.map Prod.snd, st.2)

/-- C6.  Two constraint rows sharing one constraint name, with local columns
`(a, b)` and remote columns `(x, y)` in row order (names already in their
normalized form), reflect into exactly one foreign-key record whose
`constrained_columns` is `[a, b]` and `referred_columns` is `[x, y]`, in row order
and unsorted. -/
theorem claim_C6_fk_two_rows (n a b x y t1 t2 : String) (o1 o2 : Option String)
    (reqsch : Option String) (schema dblink : String)
    (ha : normalize_name_str a = a) (hb : normalize_name_str b = b)
    (hx : normalize_name_str x = x) (hy : normalize_name_str y = y)
    (ht1 : normalize_name_str t1 ≠ "") :
    get_foreign_keys false [] dblink reqsch schema
      [⟨n, "R", a, some t1, some x, o1⟩, ⟨n, "R", b, some t2, some y, o2⟩]
      = .ok ([{ name := some n,
                constrained_columns := [a, b],
                referred_schema :=
                  if reqsch.isSome ∨ denormalize_name (normalize_name o1) ≠ some schema
                  then normalize_name o1 else none,
                referred_table := some (normalize_name_str t1),
                referred_columns := [some x, some y] }], []) := by
  simp only [get_foreign_keys, get_foreign_keys_rows, fkProcessRow, fkSetReferred,
    fkResolveReferred, normalize_name, Option.map_some', alistGet, alistSet,
    fkey_rec, optStrFalsy, List.find?, List.any_nil, ha, hb, hx, hy]
  by_cases hc :
      reqsch.isSome = true ∨ denormalize_name (Option.map normalize_name_str o1) ≠ some schema
  · rw [if_pos hc]
    simp [ht1, normalize_name, if_pos hc]
  · rw [if_neg hc]
    simp [ht1, normalize_name, if_neg hc]

/-- C6 witness: constraint `fk1` over rows `(a, x)` then `(b, y)` referring to
table `t` in owner `o`. -/
theorem claim_C6_fk_two_rows_witness :
    get_foreign_keys false [] "" none "SCOTT"
      [⟨"fk1", "R", "a", some "t", some "x", some "o"⟩,
       ⟨"fk1", "R", "b", some "t", some "y", some "o"⟩]
      = .ok ([{ name := some "fk1",
                constrained_columns := ["a", "b"],
                referred_schema := some "o",
                referred_table := some "t",
                referred_columns := [some "x", some "y"] }], []) := by
  rw [claim_C6_fk_two_rows "fk1" "a" "b" "x" "y" "t" "t" (some "o") (some "o")
    none "SCOTT" "" (by decide) (by decide) (by decide) (by decide) (by decide)]
  have h1 : normalize_name_str "t" = "t" := by decide
  have h2 : normalize_name (some "o") = some "o" := by decide
  rw [h1, if_pos (Or.inr (by decide)), h2]

/-! ## Pagination rewrite (`OracleCompiler.visit_select`) -/

/-- A caller-side select as `visit_select` sees it: its column keys and the
`_limit` / `_offset` attributes. -/
structure SelectStmt where
  columns : List String
  limit : Option Nat
  offset : Option Nat
deriving DecidableEq, Repr

/-- The `rownum` criteria the rewrite appends. -/
inductive PageFilter where
  /-- `sql.literal_column("ROWNUM") <= max_row`. -/
  | rownumLe (bound : Nat)
  /-- `sql.literal_column("ora_rn") > offset`. -/
  | oraRnGt (bound : Nat)
deriving DecidableEq, Repr

/-- The statement shape after the rewrite: the original select, wrapped in zero or
more subquery levels, each with its emitted column-key list, optional
`FIRST_ROWS(n)` hint and appended where-criteria. -/
inductive CompiledSelect where
  | plain (cols : List String)
  | wrapped (cols : List String) (hint : Option Nat) (filters : List PageFilter)
      (inner : CompiledSelect)
deriving DecidableEq, Repr

/-- The key of the row-number pseudo-column `sql.literal_column("ROWNUM").label("ora_rn")`. -/
def ora_rn : String := "ora_rn"

/-- The limit/offset rewrite of `OracleCompiler.visit_select`: when a limit or an
offset is present, wrap the select (`limitselect`), prefixing `FIRST_ROWS(limit)`
when `optimize_limits` is set and the limit is truthy, and appending
`ROWNUM <= limit (+ offset)` when a limit is present; with no offset that single
wrap is the result, otherwise the wrap also selects `ROWNUM` as `ora_rn` and a
second wrap (`offsetselect`) keeps every column whose key is not `ora_rn` and
appends `ora_rn > offset`. -/
def visit_select_pagination (optimize_limits : Bool) (s : SelectStmt) :
    CompiledSelect :=
  if s.limit.isSome || s.offset.isSome then
    let hint : Option Nat :=
      match s.limit with
      | some l => if l ≠ 0 && optimize_limits then some l else none
      | none => none
    let limitFilters : List PageFilter :=
      match s.limit with
      | some l => [.rownumLe (l + s.offset.getD 0)]
      | none => []
    match s.offset with
    | none => .wrapped s.columns hint limitFilters (.plain s.columns)
    | some o =>
      let withRn := s.columns ++ [ora_rn]
      .wrapped (withRn.filter (fun c => c ≠ ora_rn)) none [.oraRnGt o]
        (.wrapped withRn hint limitFilters (.plain s.columns))
  else .plain s.columns

/-- Number of subquery wrapping levels. -/
def wrapDepth : CompiledSelect → Nat
  | .plain _ => 0
  | .wrapped _ _ _ inner => wrapDepth inner + 1

/-- Whether any column list of the compiled statement mentions `ora_rn`. -/
def mentionsOraRn : CompiledSelect → Bool
  | .plain cols => cols.contains ora_rn
  | .wrapped cols _ _ inner => cols.contains ora_rn || mentionsOraRn inner

/-- Whether any wrapping level carries a `ROWNUM <=` upper-bound filter. -/
def hasRownumFilter : CompiledSelect → Bool
  | .plain _ => false
  | .wrapped _ _ fs inner =>
    fs.any (fun f => match f with | .rownumLe _ => true | _ => false) ||
    hasRownumFilter inner

/-- The column list emitted at the outermost level. -/
def topCols : CompiledSelect → List String
  | .plain cols => cols
  | .wrapped cols _ _ _ => cols

theorem filter_ne_not_contains (cols : List String) (k : String) :
    ((cols.filter (fun c => c ≠ k)).contains k) = false := by
  simp

/-- C1.  With a limit `L` and no offset the rewrite produces exactly one wrapping
level, filtering `ROWNUM <= L`, and no `ora_rn` pseudo-column appears anywhere
(provided the original columns do not use that key); with both limit `L` and offset
`O` it produces two levels: the inner one selects the original columns plus the
`ora_rn` pseudo-column and filters `ROWNUM <= L + O`, the outer one filters
`ora_rn > O` and its emitted column list excludes `ora_rn`. -/
theorem claim_C1_pagination (opt : Bool) (s : SelectStmt) (L : Nat) :
    (s.limit = some L → s.offset = none →
      visit_select_pagination opt s
        = .wrapped s.columns (if L ≠ 0 && opt then some L else none)
            [.rownumLe L] (.plain s.columns) ∧
      wrapDepth (visit_select_pagination opt s) = 1 ∧
      (s.columns.contains ora_rn = false →
        mentionsOraRn (visit_select_pagination opt s) = false)) ∧
    (∀ O, s.limit = some L → s.offset = some O →
      visit_select_pagination opt s
        = .wrapped ((s.columns ++ [ora_rn]).filter (fun c => c ≠ ora_rn)) none
            [.oraRnGt O]
            (.wrapped (s.columns ++ [ora_rn]) (if L ≠ 0 && opt then some L else none)
              [.rownumLe (L + O)] (.plain s.columns)) ∧
      wrapDepth (visit_select_pagination opt s) = 2 ∧
      (topCols (visit_select_pagination opt s)).contains ora_rn = false) := by
  constructor
  · intro hl ho
    have heq : visit_select_pagination opt s
        = .wrapped s.columns (if L ≠ 0 && opt then some L else none)
            [.rownumLe L] (.plain s.columns) := by
      simp [visit_select_pagination, hl, ho]
    refine ⟨heq, by rw [heq]; rfl, ?_⟩
    intro hnone
    rw [heq]
    simp only [mentionsOraRn, Bool.or_eq_false_iff]
    exact ⟨hnone, hnone⟩
  · intro O hl ho
    have heq : visit_select_pagination opt s
        = .wrapped ((s.columns ++ [ora_rn]).filter (fun c => c ≠ ora_rn)) none
            [.oraRnGt O]
            (.wrapped (s.columns ++ [ora_rn]) (if L ≠ 0 && opt then some L else none)
              [.rownumLe (L + O)] (.plain s.columns)) := by
      simp [visit_select_pagination, hl, ho]
    refine ⟨heq, by rw [heq]; rfl, ?_⟩
    rw [heq]
    exact filter_ne_not_contains (s.columns ++ [ora_rn]) ora_rn

/-- C1 witness: a three-column select with `limit = 10`, then with
`limit = 10, offset = 5` (filters `ROWNUM <= 15` and `ora_rn > 5`). -/
theorem claim_C1_pagination_witness :
    visit_select_pagination false ⟨["a", "b", "c"], some 10, none⟩
      = .wrapped ["a", "b", "c"] none [.rownumLe 10] (.plain ["a", "b", "c"]) ∧
    visit_select_pagination false ⟨["a", "b", "c"], some 10, some 5⟩
      = .wrapped ["a", "b", "c"] none [.oraRnGt 5]
          (.wrapped ["a", "b", "c", "ora_rn"] none [.rownumLe 15]
            (.plain ["a", "b", "c"])) := by
  constructor
  · have h := (claim_C1_pagination false ⟨["a", "b", "c"], some 10, none⟩ 10).1
      rfl rfl
    rw [h.1]
    decide
  · have h := (claim_C1_pagination false ⟨["a", "b", "c"], some 10, some 5⟩ 10).2
      5 rfl rfl
    rw [h.1]
    decide

/-- C10.  With an offset `O` and no limit the rewrite still produces two wrapping
levels but no `ROWNUM` upper-bound filter anywhere: the inner wrap only adds the
`ora_rn` pseudo-column (its appended filter list is empty), and the outer wrap
filters `ora_rn > O` with `ora_rn` excluded from its emitted column list. -/
theorem claim_C10_offset_only (opt : Bool) (s : SelectStmt) (O : Nat)
    (hl : s.limit = none) (ho : s.offset = some O) :
    visit_select_pagination opt s
      = .wrapped ((s.columns ++ [ora_rn]).filter (fun c => c ≠ ora_rn)) none
          [.oraRnGt O]
          (.wrapped (s.columns ++ [ora_rn]) none [] (.plain s.columns)) ∧
    hasRownumFilter (visit_select_pagination opt s) = false ∧
    wrapDepth (visit_select_pagination opt s) = 2 ∧
    (topCols (visit_select_pagination opt s)).contains ora_rn = false := by
  have heq : visit_select_pagination opt s
      = .wrapped ((s.columns ++ [ora_rn]).filter (fun c => c ≠ ora_rn)) none
          [.oraRnGt O]
          (.wrapped (s.columns ++ [ora_rn]) none [] (.plain s.columns)) := by
    simp [visit_select_pagination, hl, ho]
  refine ⟨heq, ?_, by rw [heq]; rfl, ?_⟩
  · rw [heq]
    simp [hasRownumFilter]
  · rw [heq]
    exact filter_ne_not_contains (s.columns ++ [ora_rn]) ora_rn

/-- C10 witness: a two-column select with `offset = 5` and no limit. -/
theorem claim_C10_offset_only_witness :
    visit_select_pagination false ⟨["a", "b"], none, some 5⟩
      = .wrapped ["a", "b"] none [.oraRnGt 5]
          (.wrapped ["a", "b", "ora_rn"] none [] (.plain ["a", "b"])) ∧
    hasRownumFilter (visit_select_pagination false ⟨["a", "b"], none, some 5⟩)
      = false := by
  have h := claim_C10_offset_only false ⟨["a", "b"], none, some 5⟩ 5 rfl rfl
  constructor
  · rw [h.1]
    decide
  · exact h.2.1

/-! ## Non-ANSI join rewrite
(`OracleCompiler.visit_join` / `_get_nonansi_join_whereclause`) -/

/-- A comparison operand in a join ON-clause: a table column (the column's
`.table`, identified here by table name) or the `_OuterJoinColumn(column)` wrapper
the rewrite introduces (rendered by `visit_outer_join_column` as `column(+)`). -/
inductive JoinOperand where
  | col (tbl : String) (name : String)
  | outerJoinColumn (tbl : String) (name : String)
deriving DecidableEq, Repr

/-- ON-clause comparison operators; only `sql_operators.eq` is special-cased. -/
inductive CompOp where
  | eq
  | ne
  | lt
  | gt
deriving DecidableEq, Repr

/-- A join ON-condition: binary comparisons, conjoined. -/
inductive OnClause where
  | binary (op : CompOp) (left right : JoinOperand)
  | conj (a b : OnClause)
deriving DecidableEq, Repr

/-- A FROM element: a table or a (possibly nested) join with its ON-condition. -/
inductive FromClause where
  | table (name : String)
  | join (left right : FromClause) (isouter : Bool) (onclause : OnClause)
deriving DecidableEq, Repr

/-- `operand.table is join.right`: a column's table object can only be identical to
the join's right side when that side is a single table; table objects are
identified by name. -/
def operandTableIs (rhs : FromClause) : JoinOperand → Bool
  | .col t _ =>
    match rhs with
    | .table n => t == n
    | .join _ _ _ _ => false
  | .outerJoinColumn _ _ => false

/-- Wrap an operand in `_OuterJoinColumn`. -/
def wrapOperand : JoinOperand → JoinOperand
  | .col t n => .outerJoinColumn t n
  | .outerJoinColumn t n => .outerJoinColumn t n

/-- The `visit_binary` of `_get_nonansi_join_whereclause`: on an equality whose
left operand's table is the join's right side, wrap the left operand; otherwise,
when the right operand's table is, wrap the right operand; all other binaries are
left untouched. -/
def tagBinary (rhs : FromClause) (op : CompOp) (l r : JoinOperand) :
    JoinOperand × JoinOperand :=
  if op = .eq then
    if operandTableIs rhs l then (wrapOperand l, r)
    else if operandTableIs rhs r then (l, wrapOperand r)
    else (l, r)
  else (l, r)

/-- `visitors.cloned_traverse(join.onclause, {}, {'binary': visit_binary})`: a
fresh clause with each binary rewritten; the original clause is untouched. -/
def tagOnClause (rhs : FromClause) : OnClause → OnClause
  | .binary op l r => .binary op (tagBinary rhs op l r).1 (tagBinary rhs op l r).2
  | .conj a b => .conj (tagOnClause rhs a) (tagOnClause rhs b)

/-- The `visit_join` visitor of `_get_nonansi_join_whereclause` folded over a FROM
element (`visitors.traverse(f, {}, {'join': visit_join})`): for every join node
append its ON-condition, tagged when the join is an outer join. -/
def nonansiVisitJoin : List OnClause → FromClause → List OnClause
  | acc, .table _ => acc
  | acc, .join l r outer onc =>
    nonansiVisitJoin
      (nonansiVisitJoin (acc ++ [if outer then tagOnClause r onc else onc]) l) r

/-- `OracleCompiler._get_nonansi_join_whereclause(froms)`: the clauses collected
from every FROM element, to be conjoined by `sql.and_` and merged into the
statement's WHERE clause by `visit_select`. -/
def _get_nonansi_join_whereclause (froms : List FromClause) : List OnClause :=
  froms.foldl nonansiVisitJoin []

/-- Tokens of the emitted FROM text. -/
inductive SqlTok where
  | ident (name : String)
  | comma
  | kwJoin
  | kwLeftOuterJoin
  | kwOn
deriving DecidableEq, Repr

/-- `OracleCompiler.visit_join` with `use_ansi = False`:
`process(join.left) + ", " + process(join.right)`; a table renders as its name. -/
def visit_join_nonansi : FromClause → List SqlTok
  | .table n => [.ident n]
  | .join l r _ _ => visit_join_nonansi l ++ [.comma] ++ visit_join_nonansi r

/-- The tables of a FROM element, left to right. -/
def fromTables : FromClause → List String
  | .table n => [n]
  | .join l r _ _ => fromTables l ++ fromTables r

/-- A comma-separated list of table names, as tokens. -/
def commaList : List String → List SqlTok
  | [] => []
  | n :: rest =>
    match rest with
    | [] => [.ident n]
    | _ :: _ => .ident n :: .comma :: commaList rest

/-- The join nodes inside a FROM element, in traversal order. -/
def joinNodes : FromClause → List FromClause
  | .table _ => []
  | .join l r outer onc => .join l r outer onc :: (joinNodes l ++ joinNodes r)

/-- The WHERE clauses one FROM element contributes, in traversal order. -/
def movedClauses : FromClause → List OnClause
  | .table _ => []
  | .join l r outer onc =>
    (if outer then tagOnClause r onc else onc) :: (movedClauses l ++ movedClauses r)

theorem fromTables_ne_nil (f : FromClause) : fromTables f ≠ [] := by
  induction f with
  | table n => simp [fromTables]
  | join l r outer onc ihl ihr =>
    simp only [fromTables]
    intro h
    exact ihl (List.append_eq_nil.mp h).1

theorem commaList_append {l1 l2 : List String} (h1 : l1 ≠ []) (h2 : l2 ≠ []) :
    commaList (l1 ++ l2) = commaList l1 ++ SqlTok.comma :: commaList l2 := by
  induction l1 with
  | nil => exact absurd rfl h1
  | cons n rest ih =>
    cases rest with
    | nil =>
      cases l2 with
      | nil => exact absurd rfl h2
      | cons m tl => simp [commaList]
    | cons m tl =>
      show SqlTok.ident n :: SqlTok.comma :: commaList (m :: tl ++ l2)
          = SqlTok.ident n :: SqlTok.comma ::
            (commaList (m :: tl) ++ SqlTok.comma :: commaList l2)
      rw [ih (by simp)]

/-- The non-ANSI FROM emission is exactly the comma-separated table list. -/
theorem visit_join_nonansi_eq_commaList (f : FromClause) :
    visit_join_nonansi f = commaList (fromTables f) := by
  induction f with
  | table n => rfl
  | join l r outer onc ihl ihr =>
    simp only [visit_join_nonansi, fromTables, ihl, ihr]
    rw [commaList_append (fromTables_ne_nil l) (fromTables_ne_nil r)]
    simp

theorem commaList_no_kw (l : List String) :
    SqlTok.kwJoin ∉ commaList l ∧ SqlTok.kwLeftOuterJoin ∉ commaList l := by
  induction l with
  | nil => simp [commaList]
  | cons n rest ih =>
    cases rest with
    | nil => simp [commaList]
    | cons m tl =>
      simp only [commaList, List.mem_cons]
      constructor
      · rintro (h | h | h) <;> first
          | exact SqlTok.noConfusion h
          | exact ih.1 h
      · rintro (h | h | h) <;> first
          | exact SqlTok.noConfusion h
          | exact ih.2 h

theorem nonansiVisitJoin_eq (f : FromClause) :
    ∀ acc, nonansiVisitJoin acc f = acc ++ movedClauses f := by
  induction f with
  | table n => intro acc; simp [nonansiVisitJoin, movedClauses]
  | join l r outer onc ihl ihr =>
    intro acc
    simp only [nonansiVisitJoin, movedClauses, ihl, ihr]
    simp

theorem nonansi_whereclause_eq (froms : List FromClause) :
    _get_nonansi_join_whereclause froms = (froms.map movedClauses).flatten := by
  suffices h : ∀ acc, froms.foldl nonansiVisitJoin acc
      = acc ++ (froms.map movedClauses).flatten by
    simpa using h []
  induction froms with
  | nil => intro acc; simp
  | cons f rest ih =>
    intro acc
    simp only [List.foldl_cons, List.map_cons, List.flatten, ih, nonansiVisitJoin_eq]
    simp

/-- Every join node's (tagged) ON-condition appears among the moved clauses. -/
theorem movedClauses_of_joinNode {f : FromClause} {l r : FromClause}
    {outer : Bool} {onc : OnClause}
    (h : FromClause.join l r outer onc ∈ joinNodes f) :
    (if outer then tagOnClause r onc else onc) ∈ movedClauses f := by
  induction f with
  | table n => simp [joinNodes] at h
  | join fl fr fouter fonc ihl ihr =>
    simp only [joinNodes, List.mem_cons, List.mem_append] at h
    rcases h with h | h | h
    · cases h
      simp [movedClauses]
    · simp only [movedClauses, List.mem_cons, List.mem_append]
      exact Or.inr (Or.inl (ihl h))
    · simp only [movedClauses, List.mem_cons, List.mem_append]
      exact Or.inr (Or.inr (ihr h))

/-- Conversely, every moved clause comes from some join node. -/
theorem joinNode_of_movedClause {f : FromClause} {c : OnClause}
    (h : c ∈ movedClauses f) :
    ∃ l r outer onc, FromClause.join l r outer onc ∈ joinNodes f ∧
      c = (if outer then tagOnClause r onc else onc) := by
  induction f with
  | table n => simp [movedClauses] at h
  | join fl fr fouter fonc ihl ihr =>
    simp only [movedClauses, List.mem_cons, List.mem_append] at h
    rcases h with h | h | h
    · exact ⟨fl, fr, fouter, fonc, by simp [joinNodes], h⟩
    · obtain ⟨l, r, outer, onc, hmem, hc⟩ := ihl h
      exact ⟨l, r, outer, onc, by simp [joinNodes, hmem], hc⟩
    · obtain ⟨l, r, outer, onc, hmem, hc⟩ := ihr h
      exact ⟨l, r, outer, onc, by simp [joinNodes, hmem], hc⟩

/-- C2 (counterexample).  In `A LEFT OUTER JOIN B ON C.y = B.x` compiled without
ANSI joins, the rewrite tags `B.x` with the outer-join marker even though the other
operand's table `C` is neither side of the join — so it is not true that only
equality predicates between columns of the join's two sides are tagged (the code
only tests whether an operand's table is the join's right side). -/
theorem claim_C2_counterexample :
    _get_nonansi_join_whereclause
        [.join (.table "A") (.table "B") true
          (.binary .eq (.col "C" "y") (.col "B" "x"))]
      = [.binary .eq (.col "C" "y") (.outerJoinColumn "B" "x")] ∧
    ("C" ≠ "A" ∧ "C" ≠ "B") := by
  constructor
  · rfl
  · exact ⟨by decide, by decide⟩

/-- C2 (amended).  With ANSI joins disabled: the FROM clause of a join is the
comma-separated list of its tables with no JOIN keyword; every join node's
ON-condition is moved into the collected WHERE clauses (tagged when the join is an
outer join) and nothing else is; and in an outer join's ON-condition an equality's
operand is wrapped with the `(+)` marker exactly when its column's table is the
join's right (outer) side — the left operand is checked first, the other operand is
not required to belong to the join's left side, and non-equality binaries are left
untouched. -/
theorem claim_C2_nonansi_joins (froms : List FromClause) (f : FromClause) :
    (visit_join_nonansi f = commaList (fromTables f) ∧
     SqlTok.kwJoin ∉ visit_join_nonansi f ∧
     SqlTok.kwLeftOuterJoin ∉ visit_join_nonansi f) ∧
    (f ∈ froms → ∀ l r outer onc, FromClause.join l r outer onc ∈ joinNodes f →
      (if outer then tagOnClause r onc else onc)
        ∈ _get_nonansi_join_whereclause froms) ∧
    (∀ c ∈ _get_nonansi_join_whereclause froms, ∃ g ∈ froms,
      ∃ l r outer onc, FromClause.join l r outer onc ∈ joinNodes g ∧
        c = (if outer then tagOnClause r onc else onc)) ∧
    (∀ rhs l r, operandTableIs rhs l = true →
      tagOnClause rhs (.binary .eq l r) = .binary .eq (wrapOperand l) r) ∧
    (∀ rhs l r, operandTableIs rhs l = false → operandTableIs rhs r = true →
      tagOnClause rhs (.binary .eq l r) = .binary .eq l (wrapOperand r)) ∧
    (∀ rhs l r, operandTableIs rhs l = false → operandTableIs rhs r = false →
      tagOnClause rhs (.binary .eq l r) = .binary .eq l r) ∧
    (∀ rhs op l r, op ≠ .eq →
      tagOnClause rhs (.binary op l r) = .binary op l r) := by
  refine ⟨⟨visit_join_nonansi_eq_commaList f, ?_, ?_⟩, ?_, ?_, ?_, ?_, ?_, ?_⟩
  · rw [visit_join_nonansi_eq_commaList f]
    exact (commaList_no_kw (fromTables f)).1
  · rw [visit_join_nonansi_eq_commaList f]
    exact (commaList_no_kw (fromTables f)).2
  · intro hf l r outer onc hnode
    rw [nonansi_whereclause_eq]
    have := movedClauses_of_joinNode hnode
    exact List.mem_flatten.mpr ⟨movedClauses f, List.mem_map_of_mem movedClauses hf, this⟩
  · intro c hc
    rw [nonansi_whereclause_eq] at hc
    obtain ⟨ms, hms, hcms⟩ := List.mem_flatten.mp hc
    obtain ⟨g, hg, rfl⟩ := List.mem_map.mp hms
    obtain ⟨l, r, outer, onc, hnode, hceq⟩ := joinNode_of_movedClause hcms
    exact ⟨g, hg, l, r, outer, onc, hnode, hceq⟩
  · intro rhs l r hl
    simp [tagOnClause, tagBinary, hl]
  · intro rhs l r hl hr
    simp [tagOnClause, tagBinary, hl, hr]
  · intro rhs l r hl hr
    simp [tagOnClause, tagBinary, hl, hr]
  · intro rhs op l r hop
    simp [tagOnClause, tagBinary, hop]

/-- C2 witness: `A LEFT OUTER JOIN B ON A.id = B.a_id` with ANSI joins disabled
yields the FROM list `A, B` and the WHERE predicate `A.id = B.a_id(+)`. -/
theorem claim_C2_nonansi_joins_witness :
    visit_join_nonansi
        (.join (.table "A") (.table "B") true
          (.binary .eq (.col "A" "id") (.col "B" "a_id")))
      = [.ident "A", .comma, .ident "B"] ∧
    (if true then
        tagOnClause (.table "B") (.binary .eq (.col "A" "id") (.col "B" "a_id"))
      else (.binary .eq (.col "A" "id") (.col "B" "a_id")))
      ∈ _get_nonansi_join_whereclause
          [.join (.table "A") (.table "B") true
            (.binary .eq (.col "A" "id") (.col "B" "a_id"))] ∧
    tagOnClause (.table "B") (.binary .eq (.col "A" "id") (.col "B" "a_id"))
      = .binary .eq (.col "A" "id") (.outerJoinColumn "B" "a_id") := by
  have h := claim_C2_nonansi_joins
    [.join (.table "A") (.table "B") true
      (.binary .eq (.col "A" "id") (.col "B" "a_id"))]
    (.join (.table "A") (.table "B") true
      (.binary .eq (.col "A" "id") (.col "B" "a_id")))
  refine ⟨?_, ?_, ?_⟩
  · rw [h.1.1]
    rfl
  · exact h.2.1 (by simp) (.table "A") (.table "B") true
      (.binary .eq (.col "A" "id") (.col "B" "a_id")) (by simp [joinNodes])
  · rw [h.2.2.2.2.1 (.table "B") (.col "A" "id") (.col "B" "a_id")
      (by decide) (by decide)]
    rfl

/-! ## Frame property of compilation (claim C9)

`visit_select` rewrites through generative copies (`select.where(...)`,
`select._generate()`, `limitselect.column(...)`) and only ever sets attributes
(`_oracle_visit`, `_is_wrapper`, `append_whereclause`) on those copies; the
non-ANSI ON-clause tagging goes through `visitors.cloned_traverse`.  To state that
the caller's tree is untouched, select objects live in an explicit store of
identities: allocation models constructing a new select object, in-place attribute
writes model mutation, and the theorem says every identity existing before the
compile call still maps to an unchanged node afterwards. -/

/-- The caller-visible state of one select object: the attributes `visit_select`
reads or writes. -/
structure SelectNode where
  columns : List String
  limit : Option Nat
  offset : Option Nat
  froms : List FromClause
  pageWheres : List PageFilter
  joinWheres : List OnClause
  oracleVisit : Bool
  isWrapper : Bool
  hint : Option Nat
  innerSel : Option Nat
deriving DecidableEq, Repr

/-- A store of select objects: identities below `nextId` are allocated. -/
structure SelectStore where
  nextId : Nat
  nodes : List (Nat × SelectNode)
deriving DecidableEq, Repr

/-- Read an object. -/
def storeGet (st : SelectStore) (i : Nat) : Option SelectNode :=
  (st.nodes.find? (fun p => p.1 == i)).map Prod.snd

/-- Construct a new select object: a fresh identity. -/
def storeAlloc (st : SelectStore) (n : SelectNode) : Nat × SelectStore :=
  (st.nextId, ⟨st.nextId + 1, st.nodes ++ [(st.nextId, n)]⟩)

/-- Mutate the object with identity `i` in place. -/
def storeSet (st : SelectStore) (i : Nat) (n : SelectNode) : SelectStore :=
  ⟨st.nextId, st.nodes.map (fun p => if p.1 == i then (i, n) else p)⟩

/-- `select.append_whereclause(criterion)` for the `ROWNUM`/`ora_rn` criteria: an
in-place write. -/
def appendPageWhere (st : SelectStore) (i : Nat) (f : PageFilter) : SelectStore :=
  match storeGet st i with
  | some n => storeSet st i { n with pageWheres := n.pageWheres ++ [f] }
  | none => st

/-- The non-ANSI step of `visit_select`: collect the join WHERE clauses and, when
any exist, rebind to `select.where(whereclause)` — a generative copy on which
`_oracle_visit` is set. -/
def nonansiJoinPhase (use_ansi : Bool) (st : SelectStore) (root : Nat) :
    SelectStore × Nat :=
  if use_ansi then (st, root)
  else
    match storeGet st root with
    | none => (st, root)
    | some node =>
      let wc := _get_nonansi_join_whereclause node.froms
      if wc.isEmpty then (st, root)
      else
        let pr := storeAlloc st
          { node with joinWheres := node.joinWheres ++ wc, oracleVisit := true }
        (pr.2, pr.1)

/-- The limit wrap of the pagination step: clone the select (`_generate`, with
`_oracle_visit` set on the clone), build `limitselect` over the clone's columns
(with the optional `FIRST_ROWS` hint, `_oracle_visit` and `_is_wrapper` set), and
append the `ROWNUM <= limit (+ offset)` criterion in place when a limit is
present.  Returns the store and the `limitselect` identity. -/
def limitWrapPhase (optimize_limits : Bool) (st : SelectStore)
    (node1 : SelectNode) : SelectStore × Nat :=
  let g := storeAlloc st { node1 with oracleVisit := true }
  let hint : Option Nat :=
    match node1.limit with
    | some l => if l ≠ 0 && optimize_limits then some l else none
    | none => none
  let ls := storeAlloc g.2
    { columns := node1.columns, limit := none, offset := none, froms := [],
      pageWheres := [], joinWheres := [], oracleVisit := true,
      isWrapper := true, hint := hint, innerSel := some g.1 }
  match node1.limit with
  | some l =>
    (appendPageWhere ls.2 ls.1 (.rownumLe (l + node1.offset.getD 0)), ls.1)
  | none => (ls.2, ls.1)

/-- The offset wrap of the pagination step: rebind `limitselect` to its generative
copy carrying the `ora_rn` label, build `offsetselect` over the non-`ora_rn`
columns, and append `ora_rn > offset` in place.  Returns the store and the
`offsetselect` identity. -/
def offsetWrapPhase (st : SelectStore) (lid : Nat) (o : Nat) : SelectStore × Nat :=
  match storeGet st lid with
  | none => (st, lid)
  | some ln =>
    let ls2 := storeAlloc st { ln with columns := ln.columns ++ [ora_rn] }
    match storeGet ls2.2 ls2.1 with
    | none => (ls2.2, ls2.1)
    | some ln2 =>
      let os := storeAlloc ls2.2
        { columns := ln2.columns.filter (fun c => c ≠ ora_rn), limit := none,
          offset := none, froms := [], pageWheres := [], joinWheres := [],
          oracleVisit := true, isWrapper := true, hint := none,
          innerSel := some ls2.1 }
      (appendPageWhere os.2 os.1 (.oraRnGt o), os.1)

/-- The pagination step of `visit_select` on the store: nothing without a limit or
offset; otherwise the limit wrap, and with an offset also the offset wrap. -/
def paginationPhase (optimize_limits : Bool) (st : SelectStore) (cur : Nat) :
    SelectStore × Nat :=
  match storeGet st cur with
  | none => (st, cur)
  | some node1 =>
    if node1.limit.isSome || node1.offset.isSome then
      let lw := limitWrapPhase optimize_limits st node1
      match node1.offset with
      | none => lw
      | some o => offsetWrapPhase lw.1 lw.2 o
    else (st, cur)

/-- `OracleCompiler.visit_select`'s rewrite on the store: nothing happens when the
select is already marked `_oracle_visit`; otherwise the non-ANSI phase then the
pagination phase run, each working on copies. -/
def visit_select_store (use_ansi optimize_limits : Bool) (st : SelectStore)
    (root : Nat) : SelectStore × Nat :=
  match storeGet st root with
  | none => (st, root)
  | some node =>
    if node.oracleVisit then (st, root)
    else
      let p1 := nonansiJoinPhase use_ansi st root
      paginationPhase optimize_limits p1.1 p1.2

theorem find?_append_single_ne (nodes : List (Nat × SelectNode)) (k i : Nat)
    (n : SelectNode) (h : i ≠ k) :
    (nodes ++ [(k, n)]).find? (fun p => p.1 == i)
      = nodes.find? (fun p => p.1 == i) := by
  induction nodes with
  | nil =>
    simp only [List.nil_append, List.find?]
    have : (k == i) = false := by simp [Ne.symm h]
    simp [this]
  | cons p t ih =>
    simp only [List.cons_append, List.find?]
    cases hp : (p.1 == i) with
    | true => rfl
    | false => exact ih

theorem storeGet_alloc_frame {st : SelectStore} {n : SelectNode} {i : Nat}
    (h : i < st.nextId) :
    storeGet (storeAlloc st n).2 i = storeGet st i := by
  simp only [storeGet, storeAlloc]
  rw [find?_append_single_ne st.nodes st.nextId i n (by omega)]

theorem storeGet_set_frame {st : SelectStore} {j : Nat} {n : SelectNode} {i : Nat}
    (h : i ≠ j) :
    storeGet (storeSet st j n) i = storeGet st i := by
  simp only [storeGet, storeSet]
  congr 1
  induction st.nodes with
  | nil => rfl
  | cons p t ih =>
    simp only [List.map_cons, List.find?]
    have hgp : ((if (p.1 == j) = true then (j, n) else p).1 == i) = (p.1 == i) := by
      by_cases hp : p.1 = j
      · simp [hp, Ne.symm h]
      · simp [hp]
    rw [hgp]
    cases hpi : (p.1 == i) with
    | true =>
      have hp1 : p.1 = i := by simpa using hpi
      simp only []
      rw [if_neg (by simp only [hp1, beq_iff_eq]; omega)]
    | false => exact ih

/-- `st2` extends `st`: identities may have been added, but every identity already
allocated in `st` reads the same node. -/
def StoreEvolves (st st2 : SelectStore) : Prop :=
  st.nextId ≤ st2.nextId ∧ ∀ i, i < st.nextId → storeGet st2 i = storeGet st i

theorem StoreEvolves.rfl (st : SelectStore) : StoreEvolves st st :=
  ⟨le_refl _, fun _ _ => Eq.refl _⟩

theorem StoreEvolves.trans {s1 s2 s3 : SelectStore} (h12 : StoreEvolves s1 s2)
    (h23 : StoreEvolves s2 s3) : StoreEvolves s1 s3 := by
  refine ⟨le_trans h12.1 h23.1, fun i hi => ?_⟩
  rw [h23.2 i (lt_of_lt_of_le hi h12.1)]
  exact h12.2 i hi

theorem StoreEvolves.alloc {st st2 : SelectStore} (h : StoreEvolves st st2)
    (n : SelectNode) : StoreEvolves st (storeAlloc st2 n).2 := by
  have h1 := h.1
  refine ⟨?_, ?_⟩
  · show st.nextId ≤ st2.nextId + 1
    omega
  · intro i hi
    rw [storeGet_alloc_frame (show i < st2.nextId by omega)]
    exact h.2 i hi

theorem StoreEvolves.set {st st2 : SelectStore} (h : StoreEvolves st st2)
    {j : Nat} (hj : st.nextId ≤ j) (n : SelectNode) :
    StoreEvolves st (storeSet st2 j n) := by
  have h1 := h.1
  refine ⟨?_, ?_⟩
  · show st.nextId ≤ st2.nextId
    omega
  · intro i hi
    rw [storeGet_set_frame (show i ≠ j by omega)]
    exact h.2 i hi

theorem StoreEvolves.pageWhere {st st2 : SelectStore} (h : StoreEvolves st st2)
    {j : Nat} (hj : st.nextId ≤ j) (f : PageFilter) :
    StoreEvolves st (appendPageWhere st2 j f) := by
  cases hsg : storeGet st2 j with
  | none => simp only [appendPageWhere, hsg]; exact h
  | some n => simp only [appendPageWhere, hsg]; exact h.set hj _

/-- The non-ANSI phase only extends the store. -/
theorem nonansiJoinPhase_evolves (ua : Bool) (st : SelectStore) (root : Nat) :
    StoreEvolves st (nonansiJoinPhase ua st root).1 := by
  simp only [nonansiJoinPhase]
  split
  · exact StoreEvolves.rfl st
  · split
    · exact StoreEvolves.rfl st
    · split
      · exact StoreEvolves.rfl st
      · exact (StoreEvolves.rfl st).alloc _

/-- The limit wrap only extends the store. -/
theorem limitWrapPhase_evolves (opt : Bool) (st : SelectStore)
    (node1 : SelectNode) :
    StoreEvolves st (limitWrapPhase opt st node1).1 := by
  simp only [limitWrapPhase]
  split
  · refine (((StoreEvolves.rfl st).alloc _).alloc _).pageWhere ?_ _
    show st.nextId ≤ st.nextId + 1
    omega
  · exact ((StoreEvolves.rfl st).alloc _).alloc _

/-- The offset wrap only extends the store. -/
theorem offsetWrapPhase_evolves (st : SelectStore) (lid o : Nat) :
    StoreEvolves st (offsetWrapPhase st lid o).1 := by
  simp only [offsetWrapPhase]
  split
  · exact StoreEvolves.rfl st
  · split
    · exact (StoreEvolves.rfl st).alloc _
    · refine (((StoreEvolves.rfl st).alloc _).alloc _).pageWhere ?_ _
      show st.nextId ≤ st.nextId + 1
      omega

/-- The pagination phase only extends the store. -/
theorem paginationPhase_evolves (opt : Bool) (st : SelectStore) (cur : Nat) :
    StoreEvolves st (paginationPhase opt st cur).1 := by
  simp only [paginationPhase]
  split
  · exact StoreEvolves.rfl st
  · split
    · split
      · exact limitWrapPhase_evolves opt st _
      · exact (limitWrapPhase_evolves opt st _).trans
          (offsetWrapPhase_evolves _ _ _)
    · exact StoreEvolves.rfl st

/-- C9.  The `visit_select` rewrite never mutates a select object that existed
before the call: every pre-existing identity (in particular every node of the
caller's tree present in the store) still reads the same node afterwards — the
non-ANSI join flattening, pagination wrapping and `_oracle_visit` / `_is_wrapper`
markers all land on freshly constructed copies. -/
theorem claim_C9_no_mutation (use_ansi optimize_limits : Bool) (st : SelectStore)
    (root : Nat) (hwf : ∀ p ∈ st.nodes, p.1 < st.nextId) :
    (∀ i, i < st.nextId →
      storeGet (visit_select_store use_ansi optimize_limits st root).1 i
        = storeGet st i) ∧
    (∀ p ∈ st.nodes,
      storeGet (visit_select_store use_ansi optimize_limits st root).1 p.1
        = storeGet st p.1) := by
  have hev : StoreEvolves st
      (visit_select_store use_ansi optimize_limits st root).1 := by
    simp only [visit_select_store]
    split
    · exact StoreEvolves.rfl st
    · split
      · exact StoreEvolves.rfl st
      · exact (nonansiJoinPhase_evolves _ _ _).trans (paginationPhase_evolves _ _ _)
  exact ⟨fun i hi => hev.2 i hi, fun p hp => hev.2 p.1 (hwf p hp)⟩

/-- C9 witness: a one-node store holding a select with a limit, an offset and an
outer join, compiled with ANSI joins disabled (so both rewrite phases fire); the
caller's node reads unchanged. -/
theorem claim_C9_no_mutation_witness :
    (∀ p ∈ (SelectStore.mk 1
        [(0, SelectNode.mk ["a", "b"] (some 10) (some 5)
          [.join (.table "A") (.table "B") true
            (.binary .eq (.col "A" "id") (.col "B" "a_id"))]
          [] [] false false none none)]).nodes,
      p.1 < 1) ∧
    storeGet (visit_select_store false false
        (SelectStore.mk 1
          [(0, SelectNode.mk ["a", "b"] (some 10) (some 5)
            [.join (.table "A") (.table "B") true
              (.binary .eq (.col "A" "id") (.col "B" "a_id"))]
            [] [] false false none none)]) 0).1 0
      = storeGet
        (SelectStore.mk 1
          [(0, SelectNode.mk ["a", "b"] (some 10) (some 5)
            [.join (.table "A") (.table "B") true
              (.binary .eq (.col "A" "id") (.col "B" "a_id"))]
            [] [] false false none none)]) 0 :=
  ⟨by decide,
   (claim_C9_no_mutation false false
     (SelectStore.mk 1
       [(0, SelectNode.mk ["a", "b"] (some 10) (some 5)
         [.join (.table "A") (.table "B") true
           (.binary .eq (.col "A" "id") (.col "B" "a_id"))]
         [] [] false false none none)]) 0 (by decide)).1 0 (by decide)⟩
